import Mathlib

/-!
Verification development for the Black Paper domain model.

This file gives a shallow embedding, in Lean 4, of the domain layer of the
Black Paper repository (hypothesis / source / comment aggregates, vote maps,
the comment tree builder and the hypothesis event transformer), together with
theorems settling the behavioural claims about that code.

Modelling conventions:
* JavaScript numbers that carry exact small quantities (vote values, counters,
  evidence ratios) are modelled as `Nat` / `Int` / `ℚ`; the arithmetic in the
  claims is exact rational arithmetic.
* `String.prototype.trim` is modelled by `jsTrim` (dropping whitespace from
  both ends); `split(/\s+/).length` on an already-trimmed string is modelled
  by `countWords` (number of maximal non-whitespace runs).
* Fallible factories (`create` methods that `throw`) become functions into
  `Except String _`, carrying the source error messages.
* JavaScript `Map` objects keyed by strings become association lists with
  `Map.set` replace-or-append semantics (`mapSetVote`).
* Object identity for comments (the tree builder mutates shared `Comment`
  objects through references held both in its id map and in its result list)
  is modelled store-style: a heap `Nat → Option Comment` indexed by the
  position of each comment in the input list.
-/

/-- Model of `String.prototype.trim`: drop whitespace from both ends. -/
def jsTrim (s : String) : String :=
  ⟨((s.data.dropWhile Char.isWhitespace).reverse.dropWhile Char.isWhitespace).reverse⟩

/-- Run-counting core: counts maximal runs of non-whitespace characters; the
flag records whether the previous character continued a run. -/
def countWordsAux : Bool → List Char → Nat
  | _, [] => 0
  | inWord, c :: rest =>
    if c.isWhitespace then countWordsAux false rest
    else (if inWord then 0 else 1) + countWordsAux true rest

/-- Number of maximal runs of non-whitespace characters.  For a trimmed,
whitespace-normal string this equals the JavaScript `s.split(/\s+/).length`. -/
def countWords (l : List Char) : Nat := countWordsAux false l

/-- Run-counting core for sentence punctuation. -/
def countSentenceRunsAux : Bool → List Char → Nat
  | _, [] => 0
  | inRun, c :: rest =>
    if c = '.' || c = '!' || c = '?' then
      (if inRun then 0 else 1) + countSentenceRunsAux true rest
    else countSentenceRunsAux false rest

/-- Number of maximal runs of sentence punctuation, the JavaScript
`(s.match(/[.!?]+/g) || []).length`. -/
def countSentenceRuns (l : List Char) : Nat := countSentenceRunsAux false l

/-- The JavaScript regex test `/^[a-zA-Z]/.test s`. -/
def startsWithLetter (s : String) : Bool :=
  match s.data with
  | [] => false
  | c :: _ => c.isAlpha

/-! ## Hypothesis aggregate (`HypothesisTitle`, `HypothesisBody`, `Hypothesis`) -/

/-- Validated hypothesis title value object. -/
structure HypothesisTitle where
  value : String
deriving Repr, DecidableEq

/-- `HypothesisTitle.create`: trims, then enforces length 10..256 and a
leading letter, exactly as in the source factory. -/
def HypothesisTitle.create (title : String) : Except String HypothesisTitle :=
  let trimmed := jsTrim title
  if trimmed.length < 10 then
    .error "Hypothesis title must be at least 10 characters to be descriptive"
  else if trimmed.length > 256 then
    .error "Hypothesis title must not exceed 256 characters for readability"
  else if startsWithLetter trimmed = false then
    .error "Hypothesis title must start with a letter"
  else .ok ⟨trimmed⟩

/-- `HypothesisTitle.toString`. -/
def HypothesisTitle.toStr (t : HypothesisTitle) : String := t.value

/-- Validated hypothesis body value object. -/
structure HypothesisBody where
  value : String
deriving Repr, DecidableEq

/-- `HypothesisBody.create`: trimmed length 50..1024 and at least two
sentence-punctuation runs. -/
def HypothesisBody.create (body : String) : Except String HypothesisBody :=
  let trimmed := jsTrim body
  if trimmed.length < 50 then
    .error "Hypothesis description must be at least 50 characters for adequate detail"
  else if trimmed.length > 1024 then
    .error "Hypothesis description must not exceed 1024 characters"
  else if countSentenceRuns trimmed.data < 2 then
    .error "Hypothesis description should contain multiple sentences for clarity"
  else .ok ⟨trimmed⟩

/-- The runtime values of the `AcademicCategory` string enum, in declaration
order; `Object.values(AcademicCategory)`. -/
def academicCategoryValues : List String :=
  ["physics", "biology", "economics", "psychology", "mathematics",
   "computer_science", "philosophy", "other"]

/-- The `Hypothesis` aggregate root.  The category is kept as its runtime
string value (TypeScript string enums erase to strings; membership in the
enum is checked by `Hypothesis.create`).  `supporting`/`refuting`/
`commentCount` are the mutable cached counters. -/
structure Hypothesis where
  id : String
  nostrEventId : String
  title : HypothesisTitle
  body : HypothesisBody
  category : String
  creatorPublicKey : String
  createdAt : Int
  supporting : Nat
  refuting : Nat
  commentCount : Nat
deriving Repr, DecidableEq

/-- `Hypothesis.create`: validates title, body, creator key and category
membership, and returns an aggregate with zero counters. -/
def Hypothesis.create (id nostrEventId title body category creatorPublicKey : String)
    (createdAt : Int) : Except String Hypothesis :=
  match HypothesisTitle.create title with
  | .error e => .error e
  | .ok vt =>
    match HypothesisBody.create body with
    | .error e => .error e
    | .ok vb =>
      if creatorPublicKey.length < 10 then .error "Valid creator public key required"
      else if (academicCategoryValues.contains category) = false then
        .error "Invalid academic category"
      else .ok ⟨id, nostrEventId, vt, vb, category, creatorPublicKey, createdAt, 0, 0, 0⟩

/-- `Hypothesis.getEvidenceBalance`: 0 with no evidence, otherwise
`((supporting / total) - 0.5) * 2`. -/
def Hypothesis.getEvidenceBalance (h : Hypothesis) : ℚ :=
  let total := h.supporting + h.refuting
  if total = 0 then 0
  else
    let supportingRatio : ℚ := (h.supporting : ℚ) / (total : ℚ)
    (supportingRatio - 0.5) * 2

/-- `Hypothesis.isControversial`: evidence roughly split and enough data. -/
def Hypothesis.isControversial (h : Hypothesis) : Bool :=
  let balance := |h.getEvidenceBalance|
  let totalSources := h.supporting + h.refuting
  decide (balance < 0.3) && decide (totalSources ≥ 10)

/-- `Hypothesis.needsMoreEvidence`: fewer than five sources overall. -/
def Hypothesis.needsMoreEvidence (h : Hypothesis) : Bool :=
  let totalSources := h.supporting + h.refuting
  decide (totalSources < 5)

/-! ## Source aggregate (`Vote`, `Source`) -/

/-- Evidence stance enumeration. -/
inductive EvidenceStance where
  | supporting
  | refuting
deriving Repr, DecidableEq

/-- A community vote on a source.  The numeric vote value is modelled as an
exact rational (JavaScript numbers). -/
structure Vote where
  value : ℚ
  voterPublicKey : String
  createdAt : Int
deriving Repr, DecidableEq

/-- `Vote.create`: the value must be exactly +1 or -1, and the voter key must
be a plausible public key (length at least 10). -/
def Vote.create (value : ℚ) (voterPublicKey : String) (createdAt : Int) :
    Except String Vote :=
  if value ≠ 1 ∧ value ≠ -1 then
    .error "Vote value must be +1 (upvote) or -1 (downvote)"
  else if voterPublicKey.length < 10 then
    .error "Valid voter public key required"
  else .ok ⟨value, voterPublicKey, createdAt⟩

/-- `Vote.isUpvote`. -/
def Vote.isUpvote (v : Vote) : Bool := decide (v.value = 1)

/-- `Vote.isDownvote`. -/
def Vote.isDownvote (v : Vote) : Bool := decide (v.value = -1)

/-- `Map.set` on a string-keyed JavaScript map: replace the entry in place if
the key is present, otherwise append it. -/
def mapSetVote (m : List (String × Vote)) (k : String) (v : Vote) :
    List (String × Vote) :=
  if m.any (fun kv => kv.1 == k) then
    m.map (fun kv => if kv.1 == k then (k, v) else kv)
  else m ++ [(k, v)]

/-- The `Source` aggregate root.  `votes` is the mutable voter-key → `Vote`
map. -/
structure Source where
  id : String
  nostrEventId : String
  hypothesisId : String
  url : String
  description : String
  stance : EvidenceStance
  contributorPublicKey : String
  createdAt : Int
  votes : List (String × Vote)
deriving Repr, DecidableEq

/-- `Source.addVote`: constructs a `Vote` (which validates the value and the
voter key) and stores it keyed by voter, replacing any prior vote. -/
def Source.addVote (s : Source) (voterPublicKey : String) (value : ℚ)
    (now : Int) : Except String Source :=
  match Vote.create value voterPublicKey now with
  | .error e => .error e
  | .ok vote => .ok { s with votes := mapSetVote s.votes voterPublicKey vote }

/-- `Source.removeVote`: `Map.delete` on the vote map. -/
def Source.removeVote (s : Source) (voterPublicKey : String) : Source :=
  { s with votes := s.votes.filter (fun kv => !(kv.1 == voterPublicKey)) }

/-- `Source.getUserVote`: the stored vote value for a voter, if any. -/
def Source.getUserVote (s : Source) (userPublicKey : String) : Option ℚ :=
  (s.votes.find? (fun kv => kv.1 == userPublicKey)).map (fun kv => kv.2.value)

/-- `Source.getTotalVotes`: `Map.size`. -/
def Source.getTotalVotes (s : Source) : Nat := s.votes.length

/-- `Source.getVoteScore`: sum of all stored vote values. -/
def Source.getVoteScore (s : Source) : ℚ :=
  s.votes.foldl (fun acc kv => acc + kv.2.value) 0

/-- `Source.isControversial`: needs at least five votes, then compares the
minority/majority vote ratio against 0.6.  The up/down tally walks the vote
map exactly as the source loop does (non-upvotes count as downvotes). -/
def Source.isControversial (s : Source) : Bool :=
  if s.getTotalVotes < 5 then false
  else
    let counts := s.votes.foldl
      (fun (acc : Nat × Nat) kv =>
        if kv.2.isUpvote then (acc.1 + 1, acc.2) else (acc.1, acc.2 + 1))
      (0, 0)
    let upvotes := counts.1
    let downvotes := counts.2
    let voteRatio : ℚ := ((min upvotes downvotes : Nat) : ℚ) / ((max upvotes downvotes : Nat) : ℚ)
    decide (voteRatio > 0.6)

/-- Number of upvotes held in the vote map. -/
def Source.upvoteCount (s : Source) : Nat :=
  (s.votes.filter (fun kv => kv.2.isUpvote)).length

/-- Number of downvotes held in the vote map. -/
def Source.downvoteCount (s : Source) : Nat :=
  (s.votes.filter (fun kv => kv.2.isDownvote)).length

/-- One step of an arbitrary vote-mutation history on a `Source`. -/
inductive VoteOp where
  | add (voterPublicKey : String) (value : ℚ) (now : Int)
  | remove (voterPublicKey : String)

/-- Apply one vote operation; a failed `addVote` throws in the source and
leaves the aggregate untouched, modelled by returning the unchanged state. -/
def applyVoteOp (s : Source) (op : VoteOp) : Source :=
  match op with
  | .add k v now =>
    match s.addVote k v now with
    | .ok s2 => s2
    | .error _ => s
  | .remove k => s.removeVote k

/-- Apply a sequence of addVote/removeVote operations. -/
def applyVoteOps (s : Source) (ops : List VoteOp) : Source :=
  ops.foldl applyVoteOp s

/-! ## Comment aggregate and tree builder -/

/-- Validated comment content value object. -/
structure CommentContent where
  value : String
deriving Repr, DecidableEq

/-- The character class `\w` of the JavaScript regexes. -/
def isWordChar (c : Char) : Bool := c.isAlphanum || c = '_'

/-- The prohibited-pattern filter of `CommentContent.create`: a single-word
comment (`/^\w+\s*$/`) or a non-substantive stock reply
(`/^(good|bad|yes|no|ok|okay|true|false)\s*$/i`), tested on the already
trimmed text (so the trailing `\s*` is vacuous). -/
def matchesProhibited (s : String) : Bool :=
  (decide (s.length > 0) && s.data.all isWordChar) ||
  (["good", "bad", "yes", "no", "ok", "okay", "true", "false"].contains
    ⟨s.data.map Char.toLower⟩)

/-- `CommentContent.create`: non-empty, at most 512 characters, at least 3
words, and not a prohibited non-substantive pattern. -/
def CommentContent.create (content : String) : Except String CommentContent :=
  let trimmed := jsTrim content
  if trimmed.length = 0 then
    .error "Comment content cannot be empty"
  else if trimmed.length > 512 then
    .error "Comment must not exceed 512 characters for readability"
  else if countWords trimmed.data < 3 then
    .error "Comment must contain at least 3 words to be meaningful"
  else if matchesProhibited trimmed then
    .error "Comment must provide substantive contribution to discussion"
  else .ok ⟨trimmed⟩

/-- The two shapes a comment parent reference can take. -/
inductive ParentType where
  | hypothesis
  | comment
deriving Repr, DecidableEq

/-- Parent reference value object. -/
structure CommentParent where
  ptype : ParentType
  id : String
  authorPublicKey : String
deriving Repr, DecidableEq

/-- The `CommentParent` constructor with its validation: non-blank parent id,
plausible parent author key. -/
def CommentParent.make (ptype : ParentType) (id authorPublicKey : String) :
    Except String CommentParent :=
  if (jsTrim id).length = 0 then .error "Parent ID cannot be empty"
  else if authorPublicKey.length < 10 then .error "Valid parent author public key required"
  else .ok ⟨ptype, id, authorPublicKey⟩

/-- `CommentParent.isRootLevel`. -/
def CommentParent.isRootLevel (p : CommentParent) : Bool :=
  p.ptype == ParentType.hypothesis

/-- `CommentParent.equals`: componentwise comparison. -/
def CommentParent.equalsCP (a b : CommentParent) : Bool :=
  a.ptype == b.ptype && a.id == b.id && a.authorPublicKey == b.authorPublicKey

/-- The `Comment` aggregate.  `replies` is the mutable child list; because
the tree builder mutates shared comment objects, replies are heap references
(positions of the reply comments in the tree builder input list).  A comment
fresh from the constructor has `replies = []` and `isDeleted = false`. -/
structure Comment where
  id : String
  nostrEventId : String
  content : String
  parent : CommentParent
  authorPublicKey : String
  createdAt : Int
  depth : Int
  replies : List Nat
  isDeleted : Bool
deriving Repr, DecidableEq

/-- `Comment.create`: validates content, parent reference, author key and the
0..10 depth band; yields a fresh comment with no replies, not deleted. -/
def Comment.create (id nostrEventId content : String) (parentType : ParentType)
    (parentId parentAuthorPublicKey authorPublicKey : String)
    (createdAt : Int) (depth : Int) : Except String Comment :=
  match CommentContent.create content with
  | .error e => .error e
  | .ok validatedContent =>
    match CommentParent.make parentType parentId parentAuthorPublicKey with
    | .error e => .error e
    | .ok parent =>
      if authorPublicKey.length < 10 then .error "Valid author public key required"
      else if depth < 0 then .error "Comment depth cannot be negative"
      else if depth > 10 then .error "Comment thread depth cannot exceed 10 levels"
      else .ok ⟨id, nostrEventId, validatedContent.value, parent, authorPublicKey,
                createdAt, depth, [], false⟩

/-- `Comment.addReply`: rejects replies to deleted comments, replies whose
parent reference does not match this comment (the source re-runs the
`CommentParent` constructor here, so its validation errors also escape), and
replies whose depth is not exactly one deeper.  On success the reply
reference is pushed onto the reply list of the (returned, updated) parent. -/
def Comment.addReply (c reply : Comment) (replyRef : Nat) : Except String Comment :=
  if c.isDeleted then .error "Cannot reply to deleted comment"
  else
    match CommentParent.make ParentType.comment c.id c.authorPublicKey with
    | .error e => .error e
    | .ok target =>
      if CommentParent.equalsCP reply.parent target = false then
        .error "Reply parent reference must match this comment"
      else if reply.depth ≠ c.depth + 1 then
        .error "Reply depth must be exactly one level deeper than parent"
      else .ok { c with replies := c.replies ++ [replyRef] }

/-- `Comment.markAsDeleted`: one-way soft delete. -/
def Comment.markAsDeleted (c : Comment) : Comment := { c with isDeleted := true }

/-- `Comment.isRootComment`: responds directly to a hypothesis at depth 0. -/
def Comment.isRootComment (c : Comment) : Bool :=
  c.parent.isRootLevel && c.depth == 0

/-- `Comment.canAcceptReplies`. -/
def Comment.canAcceptReplies (c : Comment) : Bool :=
  !c.isDeleted && decide (c.depth < 10)

/-- First pass of `CommentTreeBuilder.buildTree`: the id → comment map.  The
map holds, for each id, a reference to the comment (its input position);
`Map.set` in insertion order means the last comment with a given id wins. -/
def indexMap (comments : List Comment) : List (String × Nat) :=
  comments.enum.map (fun ic => (ic.2.id, ic.1))

/-- `Map.get` against the id map built by successive `Map.set`. -/
def mapGetNat (m : List (String × Nat)) (k : String) : Option Nat :=
  (m.reverse.find? (fun kv => kv.1 == k)).map (fun kv => kv.2)

/-- One iteration of the second pass of `buildTree`, processing the comment
at heap position `i`: root comments are appended to the result list, others
are attached to the mapped parent via `addReply`, with lookup misses and
`addReply` errors silently skipped (warn-and-continue in the source). -/
def buildTreeStep (commentMap : List (String × Nat))
    (st : (Nat → Option Comment) × List Nat) (i : Nat) :
    (Nat → Option Comment) × List Nat :=
  match st.1 i with
  | none => st
  | some c =>
    if c.isRootComment then (st.1, st.2 ++ [i])
    else
      match mapGetNat commentMap c.parent.id with
      | none => st
      | some pIdx =>
        match st.1 pIdx with
        | none => st
        | some p =>
          match Comment.addReply p c i with
          | .ok p2 => (fun j => if j = pIdx then some p2 else st.1 j, st.2)
          | .error _ => st

/-- `CommentTreeBuilder.buildTree`: two passes over the flat list; returns
the final heap of (mutated) comment objects and the root references. -/
def CommentTreeBuilder.buildTree (comments : List Comment) :
    (Nat → Option Comment) × List Nat :=
  (List.range comments.length).foldl
    (buildTreeStep (indexMap comments))
    (fun i => comments.get? i, [])

/-- All heap references reachable in the returned tree from a list of
references, following reply lists, with explicit fuel (reply depth in real
trees is bounded by the depth invariant; fuel makes the traversal total). -/
def collectMany (heap : Nat → Option Comment) : Nat → List Nat → List Nat
  | 0, _ => []
  | _ + 1, [] => []
  | fuel + 1, i :: rest =>
    (i :: (match heap i with
           | none => []
           | some c => collectMany heap fuel c.replies))
      ++ collectMany heap (fuel + 1) rest
termination_by fuel idxs => (fuel, idxs.length)

/-! ## Hypothesis wire events and the event transformer

The wire `content` field is a JSON string produced by
`JSON.stringify({ title, body })` and consumed by `JSON.parse`; the
stringify/parse pair is modelled as the identity on the parsed shape
`HypothesisContent` (fields absent from the JSON object are `none`, and the
`content` key that the decoder also probes is `contentF`). -/

/-- Parsed shape of the `content` payload of a hypothesis event. -/
structure HypothesisContent where
  title : Option String
  body : Option String
  contentF : Option String
deriving Repr, DecidableEq

/-- An unsigned event template (`kind`, `content`, `tags`), as produced by the
event factories. -/
structure EventTemplate where
  kind : Nat
  content : HypothesisContent
  tags : List (List String)
deriving Repr, DecidableEq

/-- A signed wire event: template plus the fields the signer adds. -/
structure NostrEvent where
  id : String
  pubkey : String
  created_at : Int
  kind : Nat
  content : HypothesisContent
  tags : List (List String)
deriving Repr, DecidableEq

/-- `createHypothesisEvent`: kind 1, JSON content `{title, body}`, and the
discriminator/category/title tags. -/
def createHypothesisEvent (title body category : String) : EventTemplate :=
  { kind := 1
    content := { title := some title, body := some body, contentF := none }
    tags := [["t", "hypothesis"], ["t", "blackpaper"], ["category", category],
             ["title", title]] }

/-- `signEvent`: copies kind/content/tags from the template and fills in the
id, author public key and timestamp. -/
def signEventModel (tpl : EventTemplate) (id pubkey : String) (created_at : Int) :
    NostrEvent :=
  { id := id, pubkey := pubkey, created_at := created_at,
    kind := tpl.kind, content := tpl.content, tags := tpl.tags }

/-- `tags.find(tag => tag[0] === key)`. -/
def findTag (tags : List (List String)) (key : String) : Option (List String) :=
  tags.find? (fun tag => tag.head? == some key)

/-- JavaScript string truthiness of a possibly-undefined string. -/
def truthyOpt (s : Option String) : Bool :=
  match s with
  | none => false
  | some v => v ≠ ""

/-- JavaScript `a || b` where `a` is a possibly-undefined string and `b` a
string default. -/
def jsOrElse (a : Option String) (b : String) : String :=
  match a with
  | some s => if s = "" then b else s
  | none => b

/-- `NostrEventTransformer.eventToHypothesis`: category from the `category`
tag (defaulting to the `other` enum member), title from the `title` tag with
the content JSON as fallback, body from `content.body || content.content ||
""`, then the `Hypothesis.create` factory; all thrown errors are re-wrapped.
An undefined tag payload (`tag[1]`) fails the factory's category/title
validation exactly as `undefined` does at runtime, and is modelled by the
empty string respectively a missing title. -/
def NostrEventTransformer.eventToHypothesis (e : NostrEvent) :
    Except String Hypothesis :=
  let category : String :=
    match findTag e.tags "category" with
    | some tag => (tag.get? 1).getD ""
    | none => "other"
  let title : Option String :=
    match findTag e.tags "title" with
    | some tag => tag.get? 1
    | none => e.content.title
  match title with
  | none => .error "Failed to parse hypothesis event: TypeError"
  | some t =>
    let bodyStr := jsOrElse e.content.body (jsOrElse e.content.contentF "")
    match Hypothesis.create e.id e.id t bodyStr category e.pubkey (e.created_at * 1000) with
    | .error err => .error ("Failed to parse hypothesis event: " ++ err)
    | .ok h => .ok h

/-- `NostrEventTransformer.isValidHypothesisEvent`: both discriminator tags
present, and contentful title/body structure. -/
def NostrEventTransformer.isValidHypothesisEvent (e : NostrEvent) : Bool :=
  let hasHypothesisTag := e.tags.any
    (fun tag => tag.head? == some "t" && tag.get? 1 == some "hypothesis")
  let hasBlackPaperTag := e.tags.any
    (fun tag => tag.head? == some "t" && tag.get? 1 == some "blackpaper")
  let hasRequiredContent :=
    (truthyOpt e.content.title || truthyOpt e.content.body) &&
    (e.tags.any (fun tag => tag.head? == some "title") || truthyOpt e.content.title)
  hasHypothesisTag && hasBlackPaperTag && hasRequiredContent

/-- Whether a fallible factory call succeeded. -/
def exceptIsOk {α : Type} (e : Except String α) : Bool :=
  match e with
  | .ok _ => true
  | .error _ => false

/-- A comment with its mutable reply list cleared: the part of a comment the
tree builder never changes. -/
def Comment.shape (c : Comment) : Comment := { c with replies := [] }

/-- The heap of a tree-builder state agrees, reply lists aside, with the
input list `L`. -/
def SameShape (L : List Comment) (heap : Nat → Option Comment) : Prop :=
  ∀ k, (heap k).map Comment.shape = (L.get? k).map Comment.shape

/-! ## Claim theorems -/

/-- C1: `Hypothesis.getEvidenceBalance` is exactly 0 when supporting +
refuting = 0 and `((s/(s+r)) - 0.5) * 2` otherwise; supporting=10,refuting=0
gives 1 and supporting=0,refuting=10 gives -1; and for all non-negative
counters the balance lies in [-1, 1]. -/
theorem hypothesis_evidence_balance (h : Hypothesis) :
    (h.supporting + h.refuting = 0 → h.getEvidenceBalance = 0) ∧
    (h.supporting + h.refuting ≠ 0 →
      h.getEvidenceBalance =
        ((h.supporting : ℚ) / ((h.supporting : ℚ) + (h.refuting : ℚ)) - 0.5) * 2) ∧
    (h.supporting = 10 → h.refuting = 0 → h.getEvidenceBalance = 1) ∧
    (h.supporting = 0 → h.refuting = 10 → h.getEvidenceBalance = -1) ∧
    (-1 ≤ h.getEvidenceBalance ∧ h.getEvidenceBalance ≤ 1) := by
  refine ⟨?_, ?_, ?_, ?_, ?_⟩
  · intro h0
    simp [Hypothesis.getEvidenceBalance, h0]
  · intro hne
    simp only [Hypothesis.getEvidenceBalance, if_neg hne]
    push_cast
    ring
  · intro h10 h0
    simp [Hypothesis.getEvidenceBalance, h10, h0]
    norm_num
  · intro h0 h10
    simp [Hypothesis.getEvidenceBalance, h0, h10]
    norm_num
  · by_cases ht : h.supporting + h.refuting = 0
    · simp [Hypothesis.getEvidenceBalance, ht]
    · have htpos : 0 < h.supporting + h.refuting := Nat.pos_of_ne_zero ht
      have htq : (0 : ℚ) < ((h.supporting + h.refuting : ℕ) : ℚ) := by
        exact_mod_cast htpos
      have hq0 : (0 : ℚ) ≤ (h.supporting : ℚ) / ((h.supporting + h.refuting : ℕ) : ℚ) :=
        div_nonneg (by positivity) (le_of_lt htq)
      have hq1 : (h.supporting : ℚ) / ((h.supporting + h.refuting : ℕ) : ℚ) ≤ 1 := by
        rw [div_le_one htq]
        exact_mod_cast Nat.le_add_right _ _
      simp only [Hypothesis.getEvidenceBalance, if_neg ht]
      constructor <;> [nlinarith; nlinarith]

/-- C1 witness: a hypothesis with counters supporting=10, refuting=0 has
evidence balance exactly 1. -/
theorem hypothesis_evidence_balance_witness :
    Hypothesis.getEvidenceBalance ⟨"h", "e", ⟨"t"⟩, ⟨"b"⟩, "physics", "k", 0, 10, 0, 0⟩ = 1 :=
  (hypothesis_evidence_balance ⟨"h", "e", ⟨"t"⟩, ⟨"b"⟩, "physics", "k", 0, 10, 0, 0⟩).2.2.1
    rfl rfl

/-- C2: `Hypothesis.isControversial` holds iff the absolute evidence balance
is below 0.3 with at least 10 total sources; 6 supporting and 4 refuting
sources are controversial; `needsMoreEvidence` holds iff the total is below
5. -/
theorem hypothesis_controversial_spec (h : Hypothesis) :
    (h.isControversial = true ↔
      |h.getEvidenceBalance| < 0.3 ∧ h.supporting + h.refuting ≥ 10) ∧
    (h.supporting = 6 → h.refuting = 4 → h.isControversial = true) ∧
    (h.needsMoreEvidence = true ↔ h.supporting + h.refuting < 5) := by
  refine ⟨?_, ?_, ?_⟩
  · simp [Hypothesis.isControversial]
  · intro h6 h4
    simp [Hypothesis.isControversial, Hypothesis.getEvidenceBalance, h6, h4]
    rw [abs_of_nonneg (by norm_num)]
    norm_num
  · simp [Hypothesis.needsMoreEvidence]

/-- C2 witness: the 6-supporting 4-refuting hypothesis is controversial. -/
theorem hypothesis_controversial_spec_witness :
    Hypothesis.isControversial ⟨"h", "e", ⟨"t"⟩, ⟨"b"⟩, "physics", "k", 0, 6, 4, 0⟩ = true :=
  (hypothesis_controversial_spec ⟨"h", "e", ⟨"t"⟩, ⟨"b"⟩, "physics", "k", 0, 6, 4, 0⟩).2.1
    rfl rfl

/-- C5 counterexample: with the upvote value 1 (which is in {1, -1}) but a
voter key shorter than 10 characters, `Vote.create` nevertheless fails, so
success is not equivalent to the value being in {1, -1} for every voter
identity. -/
theorem vote_create_counterexample :
    exceptIsOk (Vote.create 1 "short" 0) = false := by decide

/-- C5 (amended): for voter identities that pass the public-key length check
(length at least 10), `Vote.create` succeeds iff the value is +1 or -1; for
every value outside {1, -1} it fails regardless of the voter identity. -/
theorem vote_create_valid_iff (v : ℚ) (k : String) (now : Int) :
    (10 ≤ k.length → (exceptIsOk (Vote.create v k now) = true ↔ v = 1 ∨ v = -1)) ∧
    ((v ≠ 1 ∧ v ≠ -1) → exceptIsOk (Vote.create v k now) = false) := by
  constructor
  · intro hk
    by_cases hv : v ≠ 1 ∧ v ≠ -1
    · simp [Vote.create, hv, exceptIsOk]
      try tauto
    · have hk2 : ¬ k.length < 10 := by omega
      simp [Vote.create, hv, hk2, exceptIsOk]
      try tauto
  · intro hv
    simp [Vote.create, hv, exceptIsOk]

/-- C5 witness: a +1 vote by a 10-character voter key succeeds. -/
theorem vote_create_valid_iff_witness :
    exceptIsOk (Vote.create 1 "0123456789" 0) = true :=
  ((vote_create_valid_iff 1 "0123456789" 0).1 (by decide)).mpr (Or.inl rfl)

/-- C8 counterexample: the string of 8 letters followed by 2 spaces has
length 10 and starts with a letter, yet `HypothesisTitle.create` rejects it,
because the length bounds are checked on the trimmed string. -/
theorem hypothesis_title_counterexample :
    "Abcdefgh  ".length = 10 ∧ startsWithLetter "Abcdefgh  " = true ∧
    exceptIsOk (HypothesisTitle.create "Abcdefgh  ") = false := by decide

/-- C8 (amended): with the length bounds read on the trimmed title, creation
succeeds exactly as claimed and `toString` returns the trimmed input: if the
trimmed title has length in [10, 256] and starts with a letter, creation
succeeds with value the trimmed title; if the trimmed length is below 10 or
above 256, creation fails. -/
theorem hypothesis_title_create_spec (T : String) :
    (10 ≤ (jsTrim T).length → (jsTrim T).length ≤ 256 →
      startsWithLetter (jsTrim T) = true →
      HypothesisTitle.create T = .ok ⟨jsTrim T⟩ ∧
      HypothesisTitle.toStr ⟨jsTrim T⟩ = jsTrim T) ∧
    ((jsTrim T).length < 10 ∨ 256 < (jsTrim T).length →
      exceptIsOk (HypothesisTitle.create T) = false) := by
  constructor
  · intro h10 h256 hletter
    have n10 : ¬ (jsTrim T).length < 10 := by omega
    have n256 : ¬ (jsTrim T).length > 256 := by omega
    refine ⟨?_, rfl⟩
    simp [HypothesisTitle.create, n10, n256, hletter]
  · intro hbad
    rcases hbad with hlt | hgt
    · simp [HypothesisTitle.create, hlt, exceptIsOk]
    · have n10 : ¬ (jsTrim T).length < 10 := by omega
      simp [HypothesisTitle.create, n10, hgt, exceptIsOk]

/-- C8 witness: a padded but valid title is accepted with its trimmed text. -/
theorem hypothesis_title_create_spec_witness :
    HypothesisTitle.create "  Coffee improves focus  " = .ok ⟨jsTrim "  Coffee improves focus  "⟩ :=
  ((hypothesis_title_create_spec "  Coffee improves focus  ").1
    (by decide) (by decide) (by decide)).1

/-- C10: after `markAsDeleted`, every `addReply` fails with the
deleted-comment error, whatever the reply is, and the existing reply list of
the deleted comment is unchanged. -/
theorem comment_deleted_rejects_replies (c reply : Comment) (replyRef : Nat) :
    Comment.addReply (Comment.markAsDeleted c) reply replyRef =
      .error "Cannot reply to deleted comment" ∧
    (Comment.markAsDeleted c).replies = c.replies := by
  constructor
  · simp [Comment.addReply, Comment.markAsDeleted]
  · rfl

/-- Inversion helper: what a successful `Comment.create` guarantees about
the produced comment. -/
theorem comment_create_ok_fields {id nid content : String} {pt : ParentType}
    {pid pak apk : String} {ts depth : Int} {R : Comment}
    (h : Comment.create id nid content pt pid pak apk ts depth = .ok R) :
    R.depth = depth ∧ 0 ≤ depth ∧ depth ≤ 10 ∧ R.replies = [] ∧
    R.isDeleted = false ∧ R.id = id ∧ R.authorPublicKey = apk ∧
    R.parent = ⟨pt, pid, pak⟩ := by
  simp only [Comment.create] at h
  rcases hc1 : CommentContent.create content with e | vc
  · rw [hc1] at h
    exact absurd h (by simp)
  · rw [hc1] at h
    rcases hc2 : CommentParent.make pt pid pak with e2 | pr
    · rw [hc2] at h
      exact absurd h (by simp)
    · rw [hc2] at h
      simp only [] at h
      have hpr : pr = ⟨pt, pid, pak⟩ := by
        simp only [CommentParent.make] at hc2
        split_ifs at hc2
        injection hc2 with h3
        exact h3.symm
      split_ifs at h with h1 h2 h3
      all_goals first
        | exact Except.noConfusion h
        | (simp only [Except.ok.injEq] at h
           subst h
           exact ⟨rfl, by omega, by omega, rfl, rfl, rfl, rfl, by simpa using hpr⟩)

/-- C4: a reply whose parent reference matches the parent comment but whose
depth is not parent depth + 1 is always rejected by `addReply`;
`Comment.create` rejects every depth above 10; a depth-10 reply to a depth-9
comment can be created and added; and every reply produced by
`Comment.create` is rejected by a depth-10 parent comment. -/
theorem comment_reply_depth_rules :
    (∀ (P R : Comment) (idx : Nat),
      R.parent = ⟨ParentType.comment, P.id, P.authorPublicKey⟩ →
      R.depth ≠ P.depth + 1 →
      exceptIsOk (Comment.addReply P R idx) = false) ∧
    (∀ (id nid content : String) (pt : ParentType) (pid pak apk : String)
      (ts depth : Int), 10 < depth →
      exceptIsOk (Comment.create id nid content pt pid pak apk ts depth) = false) ∧
    (∃ P9 R10 : Comment,
      Comment.create "p9" "e9" "This comment invites a reply." ParentType.comment
        "c8" "pak8pak8pak8" "apk9apk9apk9" 0 9 = .ok P9 ∧
      Comment.create "r10" "e10" "This reply sits at depth ten." ParentType.comment
        "p9" "apk9apk9apk9" "apk10apk10apk10" 0 10 = .ok R10 ∧
      exceptIsOk (Comment.addReply P9 R10 1) = true) ∧
    (∀ (P R : Comment) (idx : Nat) (id nid content : String) (pt : ParentType)
      (pid pak apk : String) (ts depth : Int),
      P.depth = 10 →
      Comment.create id nid content pt pid pak apk ts depth = .ok R →
      exceptIsOk (Comment.addReply P R idx) = false) := by
  refine ⟨?_, ?_, ?_, ?_⟩
  · intro P R idx hpar hdep
    simp only [Comment.addReply]
    repeat' split
    all_goals simp_all [exceptIsOk]
  · intro id nid content pt pid pak apk ts depth hdepth
    simp only [Comment.create]
    repeat' split
    all_goals simp_all [exceptIsOk]
  · refine ⟨⟨"p9", "e9", "This comment invites a reply.",
      ⟨ParentType.comment, "c8", "pak8pak8pak8"⟩, "apk9apk9apk9", 0, 9, [], false⟩,
      ⟨"r10", "e10", "This reply sits at depth ten.",
      ⟨ParentType.comment, "p9", "apk9apk9apk9"⟩, "apk10apk10apk10", 0, 10, [], false⟩,
      ?_, ?_, ?_⟩ <;> rfl
  · intro P R idx id nid content pt pid pak apk ts depth hP hcreate
    obtain ⟨hRd, _, hle10, _⟩ := comment_create_ok_fields hcreate
    have hne : R.depth ≠ P.depth + 1 := by omega
    simp only [Comment.addReply]
    repeat' split
    all_goals simp_all [exceptIsOk]

/-- C4 witness: a reply whose parent reference matches but whose depth is 5
instead of parent depth + 1 = 1 is rejected. -/
theorem comment_reply_depth_rules_witness :
    exceptIsOk (Comment.addReply
      ⟨"p", "e", "three word content", ⟨ParentType.hypothesis, "h1", "authorpak123"⟩,
        "apkapkapk123", 0, 0, [], false⟩
      ⟨"r", "e2", "another three words", ⟨ParentType.comment, "p", "apkapkapk123"⟩,
        "apk2apk2apk2", 0, 5, [], false⟩ 0) = false :=
  comment_reply_depth_rules.1
    ⟨"p", "e", "three word content", ⟨ParentType.hypothesis, "h1", "authorpak123"⟩,
      "apkapkapk123", 0, 0, [], false⟩
    ⟨"r", "e2", "another three words", ⟨ParentType.comment, "p", "apkapkapk123"⟩,
      "apk2apk2apk2", 0, 5, [], false⟩ 0 rfl (by decide)

/-- The up/down tally loop of `Source.isControversial`, characterised: it
adds the number of upvote entries and non-upvote entries to the
accumulator. -/
theorem voteCounts_foldl (l : List (String × Vote)) (a b : Nat) :
    l.foldl (fun (acc : Nat × Nat) kv =>
      if kv.2.isUpvote then (acc.1 + 1, acc.2) else (acc.1, acc.2 + 1)) (a, b) =
    (a + (l.filter (fun kv => kv.2.isUpvote)).length,
     b + (l.filter (fun kv => !kv.2.isUpvote)).length) := by
  induction l generalizing a b with
  | nil => simp
  | cons x xs ih =>
    by_cases hx : x.2.isUpvote
    · simp [hx, ih, Prod.ext_iff]
      omega
    · simp [hx, ih, Prod.ext_iff]
      omega

/-- In a vote map whose values are all exactly +1 or -1, the non-upvotes are
exactly the downvotes. -/
theorem filter_not_upvote_eq_downvote (l : List (String × Vote))
    (hwf : ∀ kv ∈ l, kv.2.value = 1 ∨ kv.2.value = -1) :
    l.filter (fun kv => !kv.2.isUpvote) = l.filter (fun kv => kv.2.isDownvote) := by
  apply List.filter_congr
  intro kv hkv
  rcases hwf kv hkv with hv | hv <;>
    simp [Vote.isUpvote, Vote.isDownvote, hv] <;> norm_num

/-- C6: for a `Source` whose vote map holds `n` upvotes and `m` downvotes
(every stored value being +1 or -1, as `addVote` guarantees), with `n + m ≥
5`, `isControversial` holds iff `min n m / max n m > 0.6`; with `n + m < 5`
it is false. -/
theorem source_controversial_spec (s : Source)
    (hwf : ∀ kv ∈ s.votes, kv.2.value = 1 ∨ kv.2.value = -1) :
    (s.upvoteCount + s.downvoteCount ≥ 5 →
      (s.isControversial = true ↔
        ((min s.upvoteCount s.downvoteCount : Nat) : ℚ) /
          ((max s.upvoteCount s.downvoteCount : Nat) : ℚ) > 0.6)) ∧
    (s.upvoteCount + s.downvoteCount < 5 → s.isControversial = false) := by
  have hdown := filter_not_upvote_eq_downvote s.votes hwf
  have hfold : s.votes.foldl (fun (acc : Nat × Nat) kv =>
      if kv.2.isUpvote then (acc.1 + 1, acc.2) else (acc.1, acc.2 + 1)) (0, 0) =
      (s.upvoteCount, s.downvoteCount) := by
    rw [voteCounts_foldl, hdown]
    simp [Source.upvoteCount, Source.downvoteCount]
  have hlen : s.upvoteCount + s.downvoteCount = s.votes.length := by
    rw [Source.upvoteCount, Source.downvoteCount, ← hdown]
    rw [← List.countP_eq_length_filter, ← List.countP_eq_length_filter]
    rw [List.length_eq_countP_add_countP (fun kv => kv.2.isUpvote)]
    simp
  constructor
  · intro h5
    have hnot : ¬ s.getTotalVotes < 5 := by
      rw [Source.getTotalVotes, ← hlen]
      omega
    simp only [Source.isControversial, if_neg hnot, hfold]
    simp
  · intro h5
    have hlt : s.getTotalVotes < 5 := by
      rw [Source.getTotalVotes, ← hlen]
      omega
    simp [Source.isControversial, hlt]

/-- C6 witness: a source with 3 upvotes and 2 downvotes (ratio 2/3 > 0.6) is
controversial. -/
theorem source_controversial_spec_witness :
    Source.isControversial
      ⟨"s", "e", "h", "https://nature.com/a", "long enough description text", .supporting,
        "contrib1234", 0,
        [("v1v1v1v1v1v1", ⟨1, "v1v1v1v1v1v1", 0⟩), ("v2v2v2v2v2v2", ⟨1, "v2v2v2v2v2v2", 0⟩),
         ("v3v3v3v3v3v3", ⟨1, "v3v3v3v3v3v3", 0⟩), ("v4v4v4v4v4v4", ⟨-1, "v4v4v4v4v4v4", 0⟩),
         ("v5v5v5v5v5v5", ⟨-1, "v5v5v5v5v5v5", 0⟩)]⟩ = true := by
  have h := (source_controversial_spec
      ⟨"s", "e", "h", "https://nature.com/a", "long enough description text", .supporting,
        "contrib1234", 0,
        [("v1v1v1v1v1v1", ⟨1, "v1v1v1v1v1v1", 0⟩), ("v2v2v2v2v2v2", ⟨1, "v2v2v2v2v2v2", 0⟩),
         ("v3v3v3v3v3v3", ⟨1, "v3v3v3v3v3v3", 0⟩), ("v4v4v4v4v4v4", ⟨-1, "v4v4v4v4v4v4", 0⟩),
         ("v5v5v5v5v5v5", ⟨-1, "v5v5v5v5v5v5", 0⟩)]⟩
      (by decide)).1 (by decide)
  rw [h]
  norm_num [Source.upvoteCount, Source.downvoteCount, Vote.isUpvote, Vote.isDownvote]

/-- Inversion helper: a successful `Vote.create` returns exactly the given
value, voter and timestamp. -/
theorem vote_create_ok_fields {v : ℚ} {k : String} {now : Int} {vote : Vote}
    (h : Vote.create v k now = .ok vote) : vote = ⟨v, k, now⟩ := by
  simp only [Vote.create] at h
  split_ifs at h
  injection h with h2
  exact h2.symm

/-- Replacing a present key in a vote map: the first entry found for the key
afterwards is the new entry. -/
theorem find_map_replace (m : List (String × Vote)) (k : String) (v : Vote)
    (h : m.any (fun kv => kv.1 == k) = true) :
    (m.map (fun kv => if kv.1 == k then (k, v) else kv)).find?
      (fun kv => kv.1 == k) = some (k, v) := by
  induction m with
  | nil => simp at h
  | cons x xs ih =>
    by_cases hx : (x.1 == k) = true
    · rw [List.map_cons, if_pos hx]
      exact List.find?_cons_of_pos _ (by simp)
    · have hx2 : (x.1 == k) = false := by simpa using hx
      rw [List.map_cons, if_neg (by simp [hx2])]
      rw [List.find?_cons_of_neg _ (by simp [hx2])]
      exact ih (by simpa [hx2] using h)

/-- Appending a fresh key to a vote map: the entry found for the key is the
appended one. -/
theorem find_append_new (m : List (String × Vote)) (k : String) (v : Vote)
    (h : m.any (fun kv => kv.1 == k) = false) :
    (m ++ [(k, v)]).find? (fun kv => kv.1 == k) = some (k, v) := by
  induction m with
  | nil => simp [List.find?]
  | cons x xs ih =>
    have hx : (x.1 == k) = false := by
      rcases List.any_eq_false.mp h x (by simp) with hx2
      simpa using hx2
    rw [List.cons_append, List.find?_cons_of_neg _ (by simp [hx])]
    exact ih (List.any_eq_false.mpr (fun kv hkv =>
      List.any_eq_false.mp h kv (by simp [hkv])))

/-- `Map.set` semantics: afterwards, `Map.get` of the key yields the new
vote. -/
theorem mapSetVote_find (m : List (String × Vote)) (k : String) (v : Vote) :
    (mapSetVote m k v).find? (fun kv => kv.1 == k) = some (k, v) := by
  unfold mapSetVote
  by_cases hany : m.any (fun kv => kv.1 == k) = true
  · rw [if_pos hany]
    exact find_map_replace m k v hany
  · rw [if_neg hany]
    have hfalse : m.any (fun kv => kv.1 == k) = false := by
      cases hb : m.any (fun kv => kv.1 == k)
      · rfl
      · exact absurd hb hany
    exact find_append_new m k v hfalse

/-- After `Map.set`, the key is present. -/
theorem mapSetVote_any (m : List (String × Vote)) (k : String) (v : Vote) :
    (mapSetVote m k v).any (fun kv => kv.1 == k) = true := by
  have h := mapSetVote_find m k v
  exact List.any_eq_true.mpr ⟨(k, v), List.mem_of_find?_eq_some h, by simp⟩

/-- `Map.set` on a present key keeps the map size. -/
theorem mapSetVote_length_of_mem (m : List (String × Vote)) (k : String) (v : Vote)
    (h : m.any (fun kv => kv.1 == k) = true) :
    (mapSetVote m k v).length = m.length := by
  unfold mapSetVote
  rw [if_pos h, List.length_map]

/-- `Map.set` keeps the key list duplicate-free. -/
theorem mapSetVote_keys_nodup (m : List (String × Vote)) (k : String) (v : Vote)
    (h : (m.map Prod.fst).Nodup) :
    ((mapSetVote m k v).map Prod.fst).Nodup := by
  unfold mapSetVote
  by_cases hany : m.any (fun kv => kv.1 == k) = true
  · rw [if_pos hany, List.map_map]
    have hsame : m.map (Prod.fst ∘ fun kv => if kv.1 == k then (k, v) else kv) =
        m.map Prod.fst := by
      apply List.map_congr_left
      intro kv _
      by_cases hkv : (kv.1 == k) = true
      · simp only [Function.comp, if_pos hkv]
        exact (beq_iff_eq.mp hkv).symm
      · simp [Function.comp, hkv]
    rw [hsame]
    exact h
  · rw [if_neg hany, List.map_append]
    have hk : k ∉ m.map Prod.fst := by
      intro hmem
      rcases List.mem_map.mp hmem with ⟨kv, hkv, hfst⟩
      have : m.any (fun kv => kv.1 == k) = true :=
        List.any_eq_true.mpr ⟨kv, hkv, by simp [hfst]⟩
      exact hany this
    simp only [List.nodup_append, List.nodup_cons, List.nodup_nil]
    exact ⟨h, by simp, by simpa using hk⟩

/-- `removeVote` keeps the key list duplicate-free. -/
theorem removeVote_keys_nodup (s : Source) (k : String)
    (h : (s.votes.map Prod.fst).Nodup) :
    (((s.removeVote k).votes).map Prod.fst).Nodup := by
  have hsub := (List.filter_sublist (p := fun kv => !(kv.1 == k)) s.votes).map Prod.fst
  exact List.Nodup.sublist hsub h

/-- Every addVote/removeVote history preserves duplicate-free voter keys. -/
theorem applyVoteOps_keys_nodup (s : Source) (ops : List VoteOp)
    (h : (s.votes.map Prod.fst).Nodup) :
    (((applyVoteOps s ops).votes).map Prod.fst).Nodup := by
  induction ops generalizing s with
  | nil => simpa [applyVoteOps] using h
  | cons op rest ih =>
    have hstep : (((applyVoteOp s op).votes).map Prod.fst).Nodup := by
      cases op with
      | add k v now =>
        simp only [applyVoteOp, Source.addVote]
        rcases hc : Vote.create v k now with e | vote
        · simpa using h
        · simpa using mapSetVote_keys_nodup s.votes k vote h
      | remove k => exact removeVote_keys_nodup s k h
    simpa only [applyVoteOps, List.foldl_cons] using ih (applyVoteOp s op) hstep

/-- Duplicate-free keys bound the per-voter entry count by one. -/
theorem keys_nodup_count_le_one (m : List (String × Vote))
    (h : (m.map Prod.fst).Nodup) (k2 : String) :
    (m.filter (fun kv => kv.1 == k2)).length ≤ 1 := by
  have h1 : (m.filter (fun kv => kv.1 == k2)).length =
      List.countP (fun kv => kv.1 == k2) m :=
    (List.countP_eq_length_filter _ _).symm
  have h2 : List.countP (fun kv => kv.1 == k2) m =
      List.countP (fun x => x == k2) (m.map Prod.fst) := by
    rw [List.countP_map]
    rfl
  have h3 : List.countP (fun x => x == k2) (m.map Prod.fst) =
      List.count k2 (m.map Prod.fst) := rfl
  rw [h1, h2, h3]
  exact List.nodup_iff_count_le_one.mp h k2

/-- C9: a second `addVote` by the same voter replaces the prior vote
(`getUserVote` returns the latest value, `getTotalVotes` is unchanged), and
any addVote/removeVote history starting from a map with duplicate-free voter
keys keeps at most one stored entry per voter identity. -/
theorem source_vote_overwrite_invariant (s : Source) (k : String) (v1 v2 : ℚ)
    (now1 now2 : Int) (s1 s2 : Source) (ops : List VoteOp) :
    (s.addVote k v1 now1 = .ok s1 → s1.addVote k v2 now2 = .ok s2 →
      s2.getUserVote k = some v2 ∧ s2.getTotalVotes = s1.getTotalVotes) ∧
    ((s.votes.map Prod.fst).Nodup →
      (((applyVoteOps s ops).votes).map Prod.fst).Nodup ∧
      ∀ k2, (((applyVoteOps s ops).votes).filter (fun kv => kv.1 == k2)).length ≤ 1) := by
  constructor
  · intro h1 h2
    simp only [Source.addVote] at h1 h2
    rcases hc1 : Vote.create v1 k now1 with e | vote1 <;> rw [hc1] at h1
    · exact absurd h1 (by simp)
    rcases hc2 : Vote.create v2 k now2 with e | vote2 <;> rw [hc2] at h2
    · exact absurd h2 (by simp)
    have hs1 : s1 = { s with votes := mapSetVote s.votes k vote1 } := by
      injection h1 with h
      exact h.symm
    have hs2 : s2 = { s1 with votes := mapSetVote s1.votes k vote2 } := by
      injection h2 with h
      exact h.symm
    have hv2 : vote2 = ⟨v2, k, now2⟩ := vote_create_ok_fields hc2
    constructor
    · rw [hs2, Source.getUserVote]
      simp only [mapSetVote_find]
      rw [hv2]
      rfl
    · rw [hs2, Source.getTotalVotes, Source.getTotalVotes]
      simp only []
      apply mapSetVote_length_of_mem
      rw [hs1]
      exact mapSetVote_any s.votes k vote1
  · intro hnod
    refine ⟨applyVoteOps_keys_nodup s ops hnod, fun k2 =>
      keys_nodup_count_le_one _ (applyVoteOps_keys_nodup s ops hnod) k2⟩

/-- C9 witness: on an initially empty vote map, adding a +1 vote and then a
-1 vote by the same voter leaves the latest value and an unchanged vote
count. -/
theorem source_vote_overwrite_invariant_witness :
    Source.getUserVote
      ⟨"s", "e", "h", "u", "d", EvidenceStance.supporting, "contrib", 0,
        [("kkkkkkkkkk", ⟨-1, "kkkkkkkkkk", 0⟩)]⟩ "kkkkkkkkkk" = some (-1) ∧
    Source.getTotalVotes
      ⟨"s", "e", "h", "u", "d", EvidenceStance.supporting, "contrib", 0,
        [("kkkkkkkkkk", ⟨-1, "kkkkkkkkkk", 0⟩)]⟩ =
    Source.getTotalVotes
      ⟨"s", "e", "h", "u", "d", EvidenceStance.supporting, "contrib", 0,
        [("kkkkkkkkkk", ⟨1, "kkkkkkkkkk", 0⟩)]⟩ :=
  (source_vote_overwrite_invariant
    ⟨"s", "e", "h", "u", "d", EvidenceStance.supporting, "contrib", 0, []⟩
    "kkkkkkkkkk" 1 (-1) 0 0
    ⟨"s", "e", "h", "u", "d", EvidenceStance.supporting, "contrib", 0,
      [("kkkkkkkkkk", ⟨1, "kkkkkkkkkk", 0⟩)]⟩
    ⟨"s", "e", "h", "u", "d", EvidenceStance.supporting, "contrib", 0,
      [("kkkkkkkkkk", ⟨-1, "kkkkkkkkkk", 0⟩)]⟩ []).1 rfl rfl

/-- A title accepted by `HypothesisTitle.create` is not the empty string. -/
theorem title_create_ok_ne_empty {t : String} {vt : HypothesisTitle}
    (h : HypothesisTitle.create t = .ok vt) : t ≠ "" := by
  intro he
  rw [he] at h
  exact Except.noConfusion h

/-- A body accepted by `HypothesisBody.create` is not the empty string. -/
theorem body_create_ok_ne_empty {b : String} {vb : HypothesisBody}
    (h : HypothesisBody.create b = .ok vb) : b ≠ "" := by
  intro he
  rw [he] at h
  exact Except.noConfusion h

/-- C7: encoding the fields of any hypothesis accepted by
`Hypothesis.create` into a wire event with `createHypothesisEvent`, signing
it, and decoding it back through `NostrEventTransformer` passes the
validator and yields a hypothesis with the same title, body and category. -/
theorem hypothesis_event_roundtrip (hid nid t b cat pk : String) (ts : Int)
    (eid : String) (cts : Int) (h : Hypothesis)
    (hc : Hypothesis.create hid nid t b cat pk ts = .ok h) :
    NostrEventTransformer.isValidHypothesisEvent
      (signEventModel (createHypothesisEvent t b cat) eid pk cts) = true ∧
    ∃ h2, NostrEventTransformer.eventToHypothesis
        (signEventModel (createHypothesisEvent t b cat) eid pk cts) = .ok h2 ∧
      h2.title = h.title ∧ h2.body = h.body ∧ h2.category = h.category := by
  simp only [Hypothesis.create] at hc
  rcases ht : HypothesisTitle.create t with e | vt <;> rw [ht] at hc
  · exact absurd hc (by simp)
  rcases hb : HypothesisBody.create b with e | vb <;> rw [hb] at hc
  · exact absurd hc (by simp)
  simp only [] at hc
  split_ifs at hc with h1 h2
  simp only [Except.ok.injEq] at hc
  subst hc
  have htne : t ≠ "" := title_create_ok_ne_empty ht
  have hbne : b ≠ "" := body_create_ok_ne_empty hb
  constructor
  · simp [NostrEventTransformer.isValidHypothesisEvent, signEventModel,
      createHypothesisEvent, truthyOpt, htne]
  · refine ⟨⟨eid, eid, vt, vb, cat, pk, cts * 1000, 0, 0, 0⟩, ?_, rfl, rfl, rfl⟩
    have hmem : cat ∈ academicCategoryValues := by
      cases hb2 : academicCategoryValues.contains cat
      · exact absurd hb2 h2
      · simpa using hb2
    simp [NostrEventTransformer.eventToHypothesis, signEventModel,
      createHypothesisEvent, findTag, jsOrElse, hbne, Hypothesis.create,
      ht, hb, if_neg h1, if_neg h2, hmem]

/-- C7 witness: the round trip on a concrete valid hypothesis passes the
wire-event validator. -/
theorem hypothesis_event_roundtrip_witness :
    NostrEventTransformer.isValidHypothesisEvent
      (signEventModel
        (createHypothesisEvent "Coffee improves focus"
          "Caffeine blocks adenosine receptors. Many studies report improved attention."
          "psychology")
        "e1" "pkpkpkpkpkpk" 5) = true :=
  (hypothesis_event_roundtrip "h1" "n1" "Coffee improves focus"
    "Caffeine blocks adenosine receptors. Many studies report improved attention."
    "psychology" "pkpkpkpkpkpk" 0 "e1" 5
    ⟨"h1", "n1", ⟨"Coffee improves focus"⟩,
      ⟨"Caffeine blocks adenosine receptors. Many studies report improved attention."⟩,
      "psychology", "pkpkpkpkpkpk", 0, 0, 0, 0⟩ rfl).1

/-- The three possible outcomes of one `buildTree` iteration: no-op (missing
comment, missing parent, or a swallowed `addReply` error), appending a root
reference, or attaching the comment to its mapped parent. -/
theorem buildTreeStep_eq (m : List (String × Nat))
    (st : (Nat → Option Comment) × List Nat) (i : Nat) :
    buildTreeStep m st i = st ∨
    (∃ c, st.1 i = some c ∧ c.isRootComment = true ∧
      buildTreeStep m st i = (st.1, st.2 ++ [i])) ∨
    (∃ c pIdx p p2, st.1 i = some c ∧ c.isRootComment = false ∧
      mapGetNat m c.parent.id = some pIdx ∧ st.1 pIdx = some p ∧
      Comment.addReply p c i = .ok p2 ∧
      buildTreeStep m st i =
        (fun j => if j = pIdx then some p2 else st.1 j, st.2)) := by
  cases hc : st.1 i with
  | none => left; simp [buildTreeStep, hc]
  | some c =>
    cases hroot : c.isRootComment with
    | true =>
      right; left
      exact ⟨c, rfl, hroot, by simp [buildTreeStep, hc, hroot]⟩
    | false =>
      cases hm : mapGetNat m c.parent.id with
      | none => left; simp [buildTreeStep, hc, hroot, hm]
      | some pIdx =>
        cases hp : st.1 pIdx with
        | none => left; simp [buildTreeStep, hc, hroot, hm, hp]
        | some p =>
          cases har : Comment.addReply p c i with
          | error e => left; simp [buildTreeStep, hc, hroot, hm, hp, har]
          | ok p2 =>
            right; right
            exact ⟨c, pIdx, p, p2, rfl, hroot, hm, hp, har,
              by simp [buildTreeStep, hc, hroot, hm, hp, har]⟩

/-- A successful `addReply` only appends the reply reference. -/
theorem addReply_ok_shape {p c : Comment} {i : Nat} {p2 : Comment}
    (h : Comment.addReply p c i = .ok p2) :
    p2 = { p with replies := p.replies ++ [i] } := by
  simp only [Comment.addReply] at h
  cases hdel : p.isDeleted <;> simp only [hdel] at h
  · rcases hmk : CommentParent.make ParentType.comment p.id p.authorPublicKey with e | tg <;>
      rw [hmk] at h
    · exact Except.noConfusion h
    · simp only [] at h
      split_ifs at h
      all_goals first
        | exact Except.noConfusion h
        | (injection h with h2; exact h2.symm)
  · simp at h

/-- Two comments with equal shapes agree on every immutable field. -/
theorem shape_eq_fields {c d : Comment} (h : Comment.shape c = Comment.shape d) :
    c.id = d.id ∧ c.parent = d.parent ∧ c.authorPublicKey = d.authorPublicKey ∧
    c.depth = d.depth ∧ c.isDeleted = d.isDeleted := by
  refine ⟨?_, ?_, ?_, ?_, ?_⟩
  · have h2 := congrArg Comment.id h
    exact h2
  · have h2 := congrArg Comment.parent h
    exact h2
  · have h2 := congrArg Comment.authorPublicKey h
    exact h2
  · have h2 := congrArg Comment.depth h
    exact h2
  · have h2 := congrArg Comment.isDeleted h
    exact h2

/-- `isRootComment` only looks at the immutable shape. -/
theorem isRootComment_of_shape {c d : Comment}
    (h : Comment.shape c = Comment.shape d) :
    c.isRootComment = d.isRootComment := by
  obtain ⟨_, hp, _, hd, _⟩ := shape_eq_fields h
  simp [Comment.isRootComment, hp, hd]

/-- `equals` on a parent reference and itself holds. -/
theorem equalsCP_self (p : CommentParent) : CommentParent.equalsCP p p = true := by
  simp [CommentParent.equalsCP]

/-- Sufficient conditions under which `addReply` succeeds, with the appended
reply list. -/
theorem addReply_ok_of (A B : Comment) (i : Nat)
    (hdel : A.isDeleted = false)
    (hid : (jsTrim A.id).length ≠ 0)
    (hapk : 10 ≤ A.authorPublicKey.length)
    (hpar : B.parent = ⟨ParentType.comment, A.id, A.authorPublicKey⟩)
    (hdep : B.depth = A.depth + 1) :
    Comment.addReply A B i = .ok { A with replies := A.replies ++ [i] } := by
  have hmk : CommentParent.make ParentType.comment A.id A.authorPublicKey =
      .ok ⟨ParentType.comment, A.id, A.authorPublicKey⟩ := by
    rw [CommentParent.make, if_neg hid, if_neg (by omega)]
  rw [Comment.addReply, hdel]
  simp only [Bool.false_eq_true, if_false, hmk]
  rw [hpar, equalsCP_self]
  simp [hdep]

/-- A key carried by no comment of the input list is absent from the id
map. -/
theorem mapGetNat_indexMap_none (L : List Comment) (k : String)
    (h : ∀ c ∈ L, c.id ≠ k) : mapGetNat (indexMap L) k = none := by
  rw [mapGetNat, List.find?_eq_none.mpr, Option.map_none']
  intro kv hkv
  rw [List.mem_reverse] at hkv
  rcases List.mem_map.mp hkv with ⟨ic, hic, hkveq⟩
  have hcmem : ic.2 ∈ L := by
    have := List.mem_map_of_mem Prod.snd hic
    rwa [List.enum_map_snd] at this
  subst hkveq
  simpa using h ic.2 hcmem

/-- Root references only accumulate across `buildTree` iterations. -/
theorem buildTreeStep_roots_mono (m : List (String × Nat))
    (st : (Nat → Option Comment) × List Nat) (i x : Nat) (h : x ∈ st.2) :
    x ∈ (buildTreeStep m st i).2 := by
  rcases buildTreeStep_eq m st i with heq | ⟨c, _, _, heq⟩ |
      ⟨c, pIdx, p, p2, _, _, _, _, _, heq⟩ <;> rw [heq]
  · exact h
  · exact List.mem_append_left _ h
  · exact h

/-- Root references only accumulate across a whole `buildTree` pass. -/
theorem foldl_roots_mono (m : List (String × Nat)) (is : List Nat)
    (st : (Nat → Option Comment) × List Nat) (x : Nat) (h : x ∈ st.2) :
    x ∈ (is.foldl (buildTreeStep m) st).2 := by
  induction is generalizing st with
  | nil => simpa using h
  | cons i rest ih => exact ih _ (buildTreeStep_roots_mono m st i x h)

/-- Reply-list membership survives one `buildTree` iteration. -/
theorem buildTreeStep_replies_mono (m : List (String × Nat))
    (st : (Nat → Option Comment) × List Nat) (i j : Nat) (p : Comment) (x : Nat)
    (hj : st.1 j = some p) (hx : x ∈ p.replies) :
    ∃ p3, (buildTreeStep m st i).1 j = some p3 ∧ x ∈ p3.replies := by
  rcases buildTreeStep_eq m st i with heq | ⟨c, _, _, heq⟩ |
      ⟨c, pIdx, pm, p2, hc, hroot, hm, hp, har, heq⟩ <;> rw [heq]
  · exact ⟨p, hj, hx⟩
  · exact ⟨p, hj, hx⟩
  · by_cases hcase : j = pIdx
    · subst hcase
      rw [hj] at hp
      injection hp with hp
      subst hp
      refine ⟨p2, by simp, ?_⟩
      rw [addReply_ok_shape har]
      simp [hx]
    · exact ⟨p, by simp [hcase]; exact hj, hx⟩

/-- Reply-list membership survives a whole `buildTree` pass. -/
theorem foldl_replies_mono (m : List (String × Nat)) (is : List Nat)
    (st : (Nat → Option Comment) × List Nat) (j : Nat) (p : Comment) (x : Nat)
    (hj : st.1 j = some p) (hx : x ∈ p.replies) :
    ∃ p3, ((is.foldl (buildTreeStep m) st).1) j = some p3 ∧ x ∈ p3.replies := by
  induction is generalizing st p with
  | nil => exact ⟨p, hj, hx⟩
  | cons i rest ih =>
    obtain ⟨p3, hj3, hx3⟩ := buildTreeStep_replies_mono m st i j p x hj hx
    exact ih _ p3 hj3 hx3

/-- One `buildTree` iteration keeps the heap in shape-agreement with the
input list. -/
theorem buildTreeStep_shape (L : List Comment) (m : List (String × Nat))
    (st : (Nat → Option Comment) × List Nat) (i : Nat)
    (h : SameShape L st.1) : SameShape L (buildTreeStep m st i).1 := by
  rcases buildTreeStep_eq m st i with heq | hcase | hcase
  · rw [heq]; exact h
  · obtain ⟨c, hc, hroot, heq⟩ := hcase
    rw [heq]; exact h
  · obtain ⟨c, pIdx, p, p2, hc, hroot, hm, hp, har, heq⟩ := hcase
    rw [heq]
    intro k
    by_cases hk : k = pIdx
    · subst hk
      simp only [if_pos rfl]
      have hsh : Comment.shape p2 = Comment.shape p := by
        rw [addReply_ok_shape har]
        rfl
      have hpk := h k
      rw [hp] at hpk
      simpa [hsh] using hpk
    · simp only [if_neg hk]
      exact h k

/-- A whole `buildTree` pass keeps the heap in shape-agreement with the
input list. -/
theorem foldl_shape (L : List Comment) (m : List (String × Nat)) (is : List Nat)
    (st : (Nat → Option Comment) × List Nat)
    (h : SameShape L st.1) : SameShape L ((is.foldl (buildTreeStep m) st).1) := by
  induction is generalizing st with
  | nil => simpa using h
  | cons i rest ih => exact ih _ (buildTreeStep_shape L m st i h)

/-- A reference that is not among the starting references and sits in no
reply list of the heap is never collected from the tree. -/
theorem collectMany_not_mem (heap : Nat → Option Comment) (x : Nat)
    (hrep : ∀ j c, heap j = some c → x ∉ c.replies) :
    ∀ (fuel : Nat) (idxs : List Nat), (∀ i ∈ idxs, i ≠ x) →
      x ∉ collectMany heap fuel idxs := by
  intro fuel
  induction fuel with
  | zero =>
    intro idxs h
    simp [collectMany]
  | succ fuel ih =>
    intro idxs
    induction idxs with
    | nil =>
      intro h
      simp [collectMany]
    | cons i rest ihr =>
      intro h
      intro hmem
      simp only [collectMany, List.mem_append, List.mem_cons] at hmem
      rcases hmem with (hxi | hinner) | hrest
      · exact h i (List.mem_cons_self i rest) hxi.symm
      · cases hi : heap i with
        | none => rw [hi] at hinner; simp at hinner
        | some c =>
          rw [hi] at hinner
          refine ih c.replies ?_ hinner
          intro r hr hrx
          exact hrep i c hi (hrx ▸ hr)
      · exact ihr (fun j hj => h j (List.mem_cons_of_mem i hj)) hrest

/-- C3 (amended): over any flat comment list, if B refers to parent comment A
by id AND author key, A is root-level (hypothesis parent, depth 0) and not
deleted, A carries a well-formed id and author key, B sits one level deeper,
and the id map resolves A's id to A (e.g. ids are distinct), then `buildTree`
returns A among the roots with B in A's reply list.  If no comment in the
list carries B's parent id, B's reference ends up in no root list and in no
reply list, hence nowhere in the returned tree, and `buildTree` (which
swallows `addReply` failures) raises no error, being a total function. -/
theorem commentTree_buildTree_spec (L : List Comment) (iA iB : Nat) (A B : Comment)
    (hA : L.get? iA = some A) (hB : L.get? iB = some B)
    (hflat : ∀ c ∈ L, c.replies = []) :
    (B.parent = ⟨ParentType.comment, A.id, A.authorPublicKey⟩ →
      A.parent.ptype = ParentType.hypothesis → A.depth = 0 → B.depth = A.depth + 1 →
      A.isDeleted = false → (jsTrim A.id).length ≠ 0 → 10 ≤ A.authorPublicKey.length →
      mapGetNat (indexMap L) A.id = some iA →
      iA ∈ (CommentTreeBuilder.buildTree L).2 ∧
      ∃ A2, (CommentTreeBuilder.buildTree L).1 iA = some A2 ∧ iB ∈ A2.replies) ∧
    (B.parent.ptype = ParentType.comment →
      (∀ c ∈ L, c.id ≠ B.parent.id) →
      iB ∉ (CommentTreeBuilder.buildTree L).2 ∧
      (∀ j c, (CommentTreeBuilder.buildTree L).1 j = some c → iB ∉ c.replies) ∧
      (∀ fuel, iB ∉ collectMany (CommentTreeBuilder.buildTree L).1 fuel
        (CommentTreeBuilder.buildTree L).2)) := by
  have hiAlt : iA < L.length := by
    rcases List.get?_eq_some.mp hA with ⟨hlt, _⟩
    exact hlt
  have hiBlt : iB < L.length := by
    rcases List.get?_eq_some.mp hB with ⟨hlt, _⟩
    exact hlt
  have hshape0 : SameShape L (fun i => L.get? i) := fun k => rfl
  constructor
  · intro hpar hAt hAd hBd hAdel hAid hAapk hmap
    constructor
    · obtain ⟨l1, l2, hsplit⟩ := List.append_of_mem (List.mem_range.mpr hiAlt)
      simp only [CommentTreeBuilder.buildTree, hsplit, List.foldl_append,
        List.foldl_cons]
      have hsh1 := foldl_shape L (indexMap L) l1 (fun i => L.get? i, []) hshape0
      have hA1m := hsh1 iA
      rw [hA] at hA1m
      rcases hopt : (l1.foldl (buildTreeStep (indexMap L)) (fun i => L.get? i, [])).1 iA
        with _ | A1
      · rw [hopt] at hA1m
        simp at hA1m
      · rw [hopt] at hA1m
        have hA1sh : Comment.shape A1 = Comment.shape A := by simpa using hA1m
        have hroot1 : A1.isRootComment = true := by
          rw [isRootComment_of_shape hA1sh]
          simp [Comment.isRootComment, CommentParent.isRootLevel, hAt, hAd]
        have hstep : buildTreeStep (indexMap L)
            (l1.foldl (buildTreeStep (indexMap L)) (fun i => L.get? i, [])) iA =
            ((l1.foldl (buildTreeStep (indexMap L)) (fun i => L.get? i, [])).1,
             (l1.foldl (buildTreeStep (indexMap L)) (fun i => L.get? i, [])).2 ++ [iA]) := by
          simp only [List.get?_eq_getElem?] at hopt
          simp [buildTreeStep, hopt, hroot1]
        rw [hstep]
        exact foldl_roots_mono _ l2 _ iA
          (List.mem_append_right _ (List.mem_singleton.mpr rfl))
    · obtain ⟨l1, l2, hsplit⟩ := List.append_of_mem (List.mem_range.mpr hiBlt)
      simp only [CommentTreeBuilder.buildTree, hsplit, List.foldl_append,
        List.foldl_cons]
      have hsh1 := foldl_shape L (indexMap L) l1 (fun i => L.get? i, []) hshape0
      have hBm := hsh1 iB
      rw [hB] at hBm
      rcases hoptB : (l1.foldl (buildTreeStep (indexMap L)) (fun i => L.get? i, [])).1 iB
        with _ | B1
      · rw [hoptB] at hBm
        simp at hBm
      · rw [hoptB] at hBm
        have hB1sh : Comment.shape B1 = Comment.shape B := by simpa using hBm
        have hAm := hsh1 iA
        rw [hA] at hAm
        rcases hoptA : (l1.foldl (buildTreeStep (indexMap L)) (fun i => L.get? i, [])).1 iA
          with _ | A1
        · rw [hoptA] at hAm
          simp at hAm
        · rw [hoptA] at hAm
          have hA1sh : Comment.shape A1 = Comment.shape A := by simpa using hAm
          obtain ⟨hBid, hBpar, hBapk, hBdep, hBdel⟩ := shape_eq_fields hB1sh
          obtain ⟨hAid1, hApar1, hAapk1, hAdep1, hAdel1⟩ := shape_eq_fields hA1sh
          have hB1root : B1.isRootComment = false := by
            simp [Comment.isRootComment, CommentParent.isRootLevel, hBpar, hpar]
          have hadd : Comment.addReply A1 B1 iB =
              .ok { A1 with replies := A1.replies ++ [iB] } := by
            apply addReply_ok_of
            · rw [hAdel1]; exact hAdel
            · rw [hAid1]; exact hAid
            · rw [hAapk1]; exact hAapk
            · rw [hBpar, hpar, hAid1, hAapk1]
            · rw [hBdep, hBd, hAdep1]
          have hmapB : mapGetNat (indexMap L) B1.parent.id = some iA := by
            rw [hBpar, hpar]
            exact hmap
          have hstep : buildTreeStep (indexMap L)
              (l1.foldl (buildTreeStep (indexMap L)) (fun i => L.get? i, [])) iB =
              (fun j => if j = iA then some { A1 with replies := A1.replies ++ [iB] }
                else (l1.foldl (buildTreeStep (indexMap L)) (fun i => L.get? i, [])).1 j,
               (l1.foldl (buildTreeStep (indexMap L)) (fun i => L.get? i, [])).2) := by
            simp only [List.get?_eq_getElem?] at hoptB hoptA
            simp [buildTreeStep, hoptB, hB1root, hmapB, hoptA, hadd]
          rw [hstep]
          exact foldl_replies_mono (indexMap L) l2 _ iA
            { A1 with replies := A1.replies ++ [iB] } iB (by simp) (by simp)
  · intro hptype habs
    have hmapnone : mapGetNat (indexMap L) B.parent.id = none :=
      mapGetNat_indexMap_none L _ habs
    have hBroot : B.isRootComment = false := by
      simp [Comment.isRootComment, CommentParent.isRootLevel, hptype]
    have hstep : ∀ (st : (Nat → Option Comment) × List Nat) (i : Nat),
        SameShape L st.1 ∧ (∀ j c, st.1 j = some c → iB ∉ c.replies) ∧ iB ∉ st.2 →
        SameShape L (buildTreeStep (indexMap L) st i).1 ∧
        (∀ j c, (buildTreeStep (indexMap L) st i).1 j = some c → iB ∉ c.replies) ∧
        iB ∉ (buildTreeStep (indexMap L) st i).2 := by
      rintro st i ⟨hsh, hrep, hroots⟩
      refine ⟨buildTreeStep_shape L _ st i hsh, ?_, ?_⟩
      · rcases buildTreeStep_eq (indexMap L) st i with heq | hcase | hcase
        · rw [heq]; exact hrep
        · obtain ⟨c, hc, hroot, heq⟩ := hcase
          rw [heq]
          exact hrep
        · obtain ⟨c, pIdx, p, p2, hc, hroot, hm, hp, har, heq⟩ := hcase
          rw [heq]
          intro j d hd
          by_cases hj : j = pIdx
          · subst hj
            simp at hd
            subst hd
            rw [addReply_ok_shape har]
            simp only [List.mem_append, List.mem_singleton]
            rintro (hmem | heq2)
            · exact hrep _ _ hp hmem
            · subst heq2
              have hcB := hsh iB
              rw [hB, hc] at hcB
              have hcsh : Comment.shape c = Comment.shape B := by simpa using hcB
              have hcpar : c.parent = B.parent := (shape_eq_fields hcsh).2.1
              rw [hcpar, hmapnone] at hm
              exact Option.noConfusion hm
          · simp only [if_neg hj] at hd
            exact hrep _ _ hd
      · rcases buildTreeStep_eq (indexMap L) st i with heq | hcase | hcase
        · rw [heq]; exact hroots
        · obtain ⟨c, hc, hroot, heq⟩ := hcase
          rw [heq]
          simp only [List.mem_append, List.mem_singleton]
          rintro (h1 | h2)
          · exact hroots h1
          · subst h2
            have hcB := hsh iB
            rw [hB, hc] at hcB
            have hcsh : Comment.shape c = Comment.shape B := by simpa using hcB
            have hcr := isRootComment_of_shape hcsh
            rw [hroot, hBroot] at hcr
            exact Bool.noConfusion hcr
        · obtain ⟨c, pIdx, p, p2, hc, hroot, hm, hp, har, heq⟩ := hcase
          rw [heq]
          exact hroots
    have hfold : ∀ (is : List Nat) (st : (Nat → Option Comment) × List Nat),
        SameShape L st.1 ∧ (∀ j c, st.1 j = some c → iB ∉ c.replies) ∧ iB ∉ st.2 →
        SameShape L ((is.foldl (buildTreeStep (indexMap L)) st).1) ∧
        (∀ j c, ((is.foldl (buildTreeStep (indexMap L)) st).1) j = some c →
          iB ∉ c.replies) ∧
        iB ∉ (is.foldl (buildTreeStep (indexMap L)) st).2 := by
      intro is
      induction is with
      | nil => intro st h; simpa using h
      | cons i rest ih =>
        intro st h
        exact ih _ (hstep st i h)
    have h0 : SameShape L (fun i => L.get? i) ∧
        (∀ j c, (fun i => L.get? i) j = some c → iB ∉ c.replies) ∧
        iB ∉ ([] : List Nat) := by
      refine ⟨hshape0, ?_, by simp⟩
      intro j c hj
      rw [hflat c (List.get?_mem hj)]
      simp
    have hfinal := hfold (List.range L.length) (fun i => L.get? i, []) h0
    simp only [CommentTreeBuilder.buildTree]
    refine ⟨hfinal.2.2, hfinal.2.1, ?_⟩
    intro fuel
    apply collectMany_not_mem _ _ hfinal.2.1
    intro i hi hieq
    subst hieq
    exact hfinal.2.2 hi

/-- C3 counterexample to the claim as stated: comment B (index 1) references
parent comment A (index 0) by type and id, both are present, A is root-level
(hypothesis parent, depth 0) and B.depth = A.depth + 1 — but B's parent
reference carries a different author key than A, so `addReply` throws inside
`buildTree`, the error is swallowed, and B ends up NOT in A's replies (A's
reply list stays empty and the roots are just A). -/
theorem commentTree_buildTree_counterexample :
    ((CommentTreeBuilder.buildTree
      [⟨"aaaaaaaaaaa", "ea", "first root comment here",
         ⟨ParentType.hypothesis, "hyp1", "hypauthor111"⟩, "authorA11111", 0, 0, [], false⟩,
       ⟨"bbbbbbbbbbb", "eb", "reply with mismatched author",
         ⟨ParentType.comment, "aaaaaaaaaaa", "wrongauthor1"⟩, "authorB11111", 0, 1, [],
         false⟩]).1 0).map (fun c => decide ((1 : Nat) ∈ c.replies)) = some false ∧
    (CommentTreeBuilder.buildTree
      [⟨"aaaaaaaaaaa", "ea", "first root comment here",
         ⟨ParentType.hypothesis, "hyp1", "hypauthor111"⟩, "authorA11111", 0, 0, [], false⟩,
       ⟨"bbbbbbbbbbb", "eb", "reply with mismatched author",
         ⟨ParentType.comment, "aaaaaaaaaaa", "wrongauthor1"⟩, "authorB11111", 0, 1, [],
         false⟩]).2 = [0] := by decide

/-- C3 witness: with the author key matching, `buildTree` on the two-element
flat list returns A as a root with B attached to A's replies. -/
theorem commentTree_buildTree_spec_witness :
    0 ∈ (CommentTreeBuilder.buildTree
      [⟨"aaaaaaaaaaa", "ea", "first root comment here",
         ⟨ParentType.hypothesis, "hyp1", "hypauthor111"⟩, "authorA11111", 0, 0, [], false⟩,
       ⟨"bbbbbbbbbbb", "eb", "reply with matching author",
         ⟨ParentType.comment, "aaaaaaaaaaa", "authorA11111"⟩, "authorB11111", 0, 1, [],
         false⟩]).2 ∧
    ∃ A2, (CommentTreeBuilder.buildTree
      [⟨"aaaaaaaaaaa", "ea", "first root comment here",
         ⟨ParentType.hypothesis, "hyp1", "hypauthor111"⟩, "authorA11111", 0, 0, [], false⟩,
       ⟨"bbbbbbbbbbb", "eb", "reply with matching author",
         ⟨ParentType.comment, "aaaaaaaaaaa", "authorA11111"⟩, "authorB11111", 0, 1, [],
         false⟩]).1 0 = some A2 ∧ 1 ∈ A2.replies :=
  (commentTree_buildTree_spec
    [⟨"aaaaaaaaaaa", "ea", "first root comment here",
       ⟨ParentType.hypothesis, "hyp1", "hypauthor111"⟩, "authorA11111", 0, 0, [], false⟩,
     ⟨"bbbbbbbbbbb", "eb", "reply with matching author",
       ⟨ParentType.comment, "aaaaaaaaaaa", "authorA11111"⟩, "authorB11111", 0, 1, [],
       false⟩] 0 1
    ⟨"aaaaaaaaaaa", "ea", "first root comment here",
      ⟨ParentType.hypothesis, "hyp1", "hypauthor111"⟩, "authorA11111", 0, 0, [], false⟩
    ⟨"bbbbbbbbbbb", "eb", "reply with matching author",
      ⟨ParentType.comment, "aaaaaaaaaaa", "authorA11111"⟩, "authorB11111", 0, 1, [], false⟩
    rfl rfl (by decide)).1 rfl rfl rfl (by decide) rfl (by decide) (by decide) (by decide)
